import Mathlib

/-!
Shallow embedding of the message-extraction core of the repository
(`discord_server_extractor.py`, `discord_psycho_analyzer.py`):

* `extract_messages_with_content` — the cursor-based channel paginator with
  rate-limit (429) backoff, embedded as `crawl` over an explicit script of
  HTTP responses (one response consumed per loop iteration, so the script
  plays the role of the mocked network).
* `organize_messages_by_user` — the per-author aggregation fold and its
  finalization step, embedded over an association list that mirrors Python's
  insertion-ordered `defaultdict`.
* `extract_content_only` — the analyzer's per-user content projection.

Modelling conventions: timestamps are abstracted to `Nat` (a well-formed
ISO-8601 "Z" timestamp parses to a point on a linear order; `none` stands
for a missing or unparseable `timestamp` field, on which
`datetime.fromisoformat` raises).  Machine floats of the Python code
(average lengths, sleep durations) are modelled as `ℚ`.  Display-only
fields that no statistic or control path reads (`avatar` URL contents,
regex-derived `channel_mentions`, the re-formatted display `timestamp`
string) are carried only where cheap and elided otherwise.
-/

/-- Author block of a raw API message (`msg['author']`): `id` and `username`
are accessed unconditionally, the rest via `.get` with defaults. -/
structure RawAuthor where
  id : Nat
  username : String
  discriminator : Option String
  global_name : Option String
  bot : Option Bool
  avatar : Option String
deriving DecidableEq

/-- Attachment record; the extractor copies `id`/`filename`/`size`/`url`
unconditionally and the remaining fields via `.get`. -/
structure Attachment where
  id : Nat
  filename : String
  size : Nat
  url : String
  content_type : Option String
  width : Option Nat
  height : Option Nat
deriving DecidableEq

/-- Embed record: the extractor copies the six `.get` fields (plus some
conditionally-present passthrough blocks that no statistic reads). -/
structure Embed where
  etype : Option String
  title : Option String
  description : Option String
  url : Option String
  color : Option Nat
  timestamp : Option Nat
deriving DecidableEq

/-- Raw reaction record: `emoji` and `count` accessed unconditionally,
`me` via `.get` with default `False`. -/
structure RawReaction where
  emoji : String
  count : Nat
  me : Option Bool
deriving DecidableEq

/-- Normalized reaction. -/
structure Reaction where
  emoji : String
  count : Nat
  me : Bool
deriving DecidableEq

/-- Raw mention record. -/
structure RawMention where
  id : Nat
  username : String
  discriminator : Option String
  global_name : Option String
deriving DecidableEq

/-- Normalized mention. -/
structure Mention where
  id : Nat
  username : String
  discriminator : String
  display_name : String
deriving DecidableEq

/-- `message_reference` block, copied field-by-field via `.get`. -/
structure Reference where
  message_id : Option Nat
  channel_id : Option Nat
  guild_id : Option Nat
deriving DecidableEq

/-- One raw API message record.  `timestamp = none` models a missing or
unparseable `timestamp` field (then `datetime.fromisoformat` raises);
`some t` models a field parsing to time `t`.  List-valued fields model
`msg.get(key, [])`, so an absent list is already `[]`. -/
structure RawMsg where
  id : Nat
  timestamp : Option Nat
  author : RawAuthor
  content : Option String
  attachments : List Attachment
  embeds : List Embed
  reactions : List RawReaction
  mentions : List RawMention
  mention_roles : List Nat
  message_reference : Option Reference
  pinned : Option Bool
  edited_timestamp : Option Nat
  msg_type : Option Nat
  flags : Option Nat
deriving DecidableEq

/-- Normalized author info (`author_info` dict built by the extractor). -/
structure Author where
  id : Nat
  username : String
  discriminator : String
  display_name : String
  bot : Bool
  avatar : Option String
deriving DecidableEq

/-- Canonical message (`message_data` dict built by the extractor). -/
structure Message where
  message_id : Nat
  channel_id : Nat
  channel_name : String
  timestamp_iso : Nat
  author : Author
  full_username : String
  content : String
  attachments : List Attachment
  embeds : List Embed
  reactions : List Reaction
  mentions : List Mention
  role_mentions : List Nat
  reply_to : Option Reference
  pinned : Bool
  edited_timestamp : Option Nat
  message_type : Nat
  flags : Nat
deriving DecidableEq

/-- Python truthiness of `global_name or username`: an absent or empty
`global_name` falls back to `username`. -/
def displayNameOf (g : Option String) (username : String) : String :=
  match g with
  | some s => if s = "" then username else s
  | none => username

/-- Embedding of the `author_info` construction. -/
def mkAuthor (ra : RawAuthor) : Author :=
  { id := ra.id
    username := ra.username
    discriminator := ra.discriminator.getD "0"
    display_name := displayNameOf ra.global_name ra.username
    bot := ra.bot.getD false
    avatar := ra.avatar }

/-- Embedding of the full-username rule: append `#discriminator` unless the
discriminator is the default `"0"`. -/
def fullUsername (a : Author) : String :=
  if a.discriminator ≠ "0" then a.username ++ "#" ++ a.discriminator
  else a.username

/-- Normalize one reaction record. -/
def mkReaction (r : RawReaction) : Reaction :=
  { emoji := r.emoji, count := r.count, me := r.me.getD false }

/-- Normalize one mention record. -/
def mkMention (m : RawMention) : Mention :=
  { id := m.id
    username := m.username
    discriminator := m.discriminator.getD "0"
    display_name := displayNameOf m.global_name m.username }

/-- Embedding of the per-record body of the extraction loop: building
`message_data` from one raw record.  Returns `none` when the timestamp is
missing or unparseable (the Python code raises there, uncaught). -/
def normalizeMsg (channel_id : Nat) (channel_name : String) (m : RawMsg) :
    Option Message :=
  match m.timestamp with
  | none => none
  | some t =>
    let a := mkAuthor m.author
    some
      { message_id := m.id
        channel_id := channel_id
        channel_name := channel_name
        timestamp_iso := t
        author := a
        full_username := fullUsername a
        content := m.content.getD ""
        attachments := m.attachments
        embeds := m.embeds
        reactions := m.reactions.map mkReaction
        mentions := m.mentions.map mkMention
        role_mentions := m.mention_roles
        reply_to := m.message_reference
        pinned := m.pinned.getD false
        edited_timestamp := m.edited_timestamp
        message_type := m.msg_type.getD 0
        flags := m.flags.getD 0 }

/-- Normalize a whole page, as the `for msg in batch` loop does: the first
record whose timestamp fails to parse aborts the entire call (uncaught
exception), modelled by `none`. -/
def normalizeBatch (channel_id : Nat) (channel_name : String) :
    List RawMsg → Option (List Message)
  | [] => some []
  | m :: rest =>
    match normalizeMsg channel_id channel_name m with
    | none => none
    | some msg => (normalizeBatch channel_id channel_name rest).map (msg :: ·)

/-- One scripted HTTP response for a page request: a 200 with a JSON batch,
a 429 whose body may carry `retry_after` seconds, or any other status. -/
inductive Response where
  | ok (batch : List RawMsg)
  | rateLimited (retry_after : Option ℚ)
  | err (code : Nat)
deriving DecidableEq

/-- Query parameters sent with one page request: the `limit` actually sent
for this batch and the `before` cursor (`none` = parameter omitted). -/
structure Request where
  batch_limit : Nat
  before : Option Nat
deriving DecidableEq

/-- State of the pagination loop of `extract_messages_with_content`.
`messages`, `before`, `total` (= `total_messages`), `has_more` are the
Python locals; `slept` accumulates `time.sleep` durations, `requests` logs
the parameters of every issued request, and `pages` logs every page
consumed — pure instrumentation that the control flow never reads. -/
structure CrawlState where
  messages : List Message
  before : Option Nat
  total : Nat
  has_more : Bool
  slept : ℚ
  requests : List Request
  pages : List (List RawMsg)
deriving DecidableEq

/-- Initial crawl state (`messages = []`, `before = None`, `total = 0`,
`has_more = True`). -/
def initState : CrawlState :=
  { messages := [], before := none, total := 0, has_more := true
    slept := 0, requests := [], pages := [] }

/-- The `while` guard: `has_more and (max_messages is None or total < max)`. -/
def loopGuard (maxM : Option Nat) (st : CrawlState) : Bool :=
  st.has_more &&
    match maxM with
    | none => true
    | some mx => decide (st.total < mx)

/-- The request size for this iteration:
`min(limit, max_messages - total_messages)` when a budget is set. -/
def batchLimit (limit : Nat) (maxM : Option Nat) (total : Nat) : Nat :=
  match maxM with
  | none => limit
  | some mx => min limit (mx - total)

/-- Log the parameters of the request issued at state `st`. -/
def logReq (limit : Nat) (maxM : Option Nat) (st : CrawlState) : CrawlState :=
  { st with requests :=
      st.requests ++ [⟨batchLimit limit maxM st.total, st.before⟩] }

/-- Id of the last (oldest) record of a non-empty batch (`batch[-1]['id']`). -/
def lastId (b : RawMsg) : List RawMsg → Nat
  | [] => b.id
  | c :: cs => lastId c cs

/-- Outcome of running the pagination loop against a finite response script:
`finished` — the loop exited normally and returned `st.messages`;
`outOfScript` — the script ran out while the loop still wanted another
page (the real loop would block on a further request);
`exn` — an uncaught exception (timestamp parse failure) aborted the call,
so the caller receives no messages. -/
inductive CrawlResult where
  | finished (st : CrawlState)
  | outOfScript (st : CrawlState)
  | exn (st : CrawlState)
deriving DecidableEq

/-- Embedding of the pagination loop of `extract_messages_with_content`.
Each loop iteration consumes exactly one scripted response.  The guard is
checked at the top of every iteration; a 200 with an empty batch or a short
batch clears `has_more`, a 200 with a full batch advances the cursor to the
last record's id, a 429 sleeps `retry_after + 0.5` (default 5) and retries
with unchanged state, any other status clears `has_more`. -/
def crawl (limit : Nat) (maxM : Option Nat) (cid : Nat) (cname : String) :
    List Response → CrawlState → CrawlResult
  | [], st =>
    if loopGuard maxM st then .outOfScript st else .finished st
  | .rateLimited ra :: rs, st =>
    if loopGuard maxM st then
      crawl limit maxM cid cname rs
        { logReq limit maxM st with slept := st.slept + (ra.getD 5 + 1/2) }
    else .finished st
  | .err _ :: rs, st =>
    if loopGuard maxM st then
      crawl limit maxM cid cname rs
        { logReq limit maxM st with has_more := false }
    else .finished st
  | .ok batch :: rs, st =>
    if loopGuard maxM st then
      let st1 := logReq limit maxM st
      match batch with
      | [] =>
        crawl limit maxM cid cname rs
          { st1 with has_more := false, pages := st1.pages ++ [[]] }
      | b :: bs =>
        match normalizeBatch cid cname (b :: bs) with
        | none => .exn st1
        | some msgs =>
          let st2 :=
            { st1 with
              messages := st1.messages ++ msgs
              before := some (lastId b bs)
              total := st1.total + (b :: bs).length
              pages := st1.pages ++ [b :: bs] }
          if (b :: bs).length < batchLimit limit maxM st.total then
            crawl limit maxM cid cname rs { st2 with has_more := false }
          else
            crawl limit maxM cid cname rs st2
    else .finished st

/-- The state carried by a crawl outcome. -/
def CrawlResult.state : CrawlResult → CrawlState
  | .finished st => st
  | .outOfScript st => st
  | .exn st => st

/-- Constructor tag of a crawl outcome. -/
def CrawlResult.tag : CrawlResult → Nat
  | .finished _ => 0
  | .outOfScript _ => 1
  | .exn _ => 2

/-- Whether the call aborted with an uncaught exception. -/
def CrawlResult.isExn : CrawlResult → Bool
  | .exn _ => true
  | _ => false

/-- Everything about a crawl state that the loop's control flow and output
depend on (all fields except the `slept` and `requests` instrumentation). -/
def CrawlState.core (st : CrawlState) :
    List Message × Option Nat × Nat × Bool × List (List RawMsg) :=
  (st.messages, st.before, st.total, st.has_more, st.pages)

/-- Outcome tag together with the behavioural core of its state. -/
def CrawlResult.core (r : CrawlResult) :
    Nat × List Message × Option Nat × Nat × Bool × List (List RawMsg) :=
  (r.tag, r.state.core)

/-- Python word count: `len(content.split())`, i.e. the number of maximal
whitespace-free runs; the extractor additionally guards with
`if msg['content'] else 0`. -/
def countWords (s : String) : Nat :=
  ((s.split Char.isWhitespace).filter (· ≠ "")).length

/-- Per-user statistics accumulated during the fold of
`organize_messages_by_user` (the pre-finalization `stats` dict;
`channels_used` is a Python `set`, modelled as a `Finset`). -/
@[ext]
structure Stats where
  total_messages : Nat
  total_characters : Nat
  total_words : Nat
  channels_used : Finset Nat
  attachments_sent : Nat
  embeds_sent : Nat
  reactions_received : Nat
  mentions_made : Nat
  first_message : Option Nat
  last_message : Option Nat
deriving DecidableEq

/-- The default-constructed `stats` dict of the `defaultdict`. -/
def emptyStats : Stats :=
  { total_messages := 0, total_characters := 0, total_words := 0
    channels_used := ∅, attachments_sent := 0, embeds_sent := 0
    reactions_received := 0, mentions_made := 0
    first_message := none, last_message := none }

/-- One step of the statistics update block of the fold. -/
def updStats (s : Stats) (m : Message) : Stats :=
  { total_messages := s.total_messages + 1
    total_characters := s.total_characters + m.content.length
    total_words :=
      s.total_words + (if m.content = "" then 0 else countWords m.content)
    channels_used := insert m.channel_id s.channels_used
    attachments_sent := s.attachments_sent + m.attachments.length
    embeds_sent := s.embeds_sent + m.embeds.length
    reactions_received :=
      s.reactions_received + (m.reactions.map Reaction.count).sum
    mentions_made := s.mentions_made + m.mentions.length
    first_message :=
      some (match s.first_message with
            | none => m.timestamp_iso
            | some t => min t m.timestamp_iso)
    last_message :=
      some (match s.last_message with
            | none => m.timestamp_iso
            | some t => max t m.timestamp_iso) }

/-- Statistics of a message list, folded from the default stats. -/
def statsOf (l : List Message) : Stats :=
  l.foldl updStats emptyStats

/-- The `user_info` snapshot: a copy of the author dict plus the
`full_username` key. -/
structure UserInfo where
  author : Author
  full_username : String
deriving DecidableEq

/-- Snapshot taken from a message. -/
def snapshotOf (m : Message) : UserInfo :=
  ⟨m.author, m.full_username⟩

/-- Per-user entry during the fold (pre-finalization). -/
structure UserData where
  user_info : Option UserInfo
  messages : List Message
  stats : Stats
deriving DecidableEq

/-- The default-constructed entry of the `defaultdict`. -/
def emptyUserData : UserData :=
  { user_info := none, messages := [], stats := emptyStats }

/-- Effect of one message on its author's entry: first-write-wins
`user_info`, message appended, statistics updated. -/
def stepUD (ud : UserData) (m : Message) : UserData :=
  { user_info :=
      match ud.user_info with
      | none => some (snapshotOf m)
      | some u => some u
    messages := ud.messages ++ [m]
    stats := updStats ud.stats m }

/-- Insertion-ordered association list standing for the Python dict:
lookup by key. -/
def lookupA {α : Type} : List (Nat × α) → Nat → Option α
  | [], _ => none
  | (k, v) :: rest, uid => if k = uid then some v else lookupA rest uid

/-- Dict write: replace in place if the key exists, else append (Python
dicts preserve insertion order). -/
def upsert {α : Type} : List (Nat × α) → Nat → α → List (Nat × α)
  | [], uid, v => [(uid, v)]
  | (k, w) :: rest, uid, v =>
    if k = uid then (uid, v) :: rest else (k, w) :: upsert rest uid v

/-- Defaultdict read: an absent key reads as the default entry. -/
def lookupUD (st : List (Nat × UserData)) (uid : Nat) : UserData :=
  (lookupA st uid).getD emptyUserData

/-- One iteration of the `for msg in messages` fold. -/
def processMsg (acc : List (Nat × UserData)) (m : Message) :
    List (Nat × UserData) :=
  upsert acc m.author.id (stepUD (lookupUD acc m.author.id) m)

/-- Sort key order used at finalization (`key=lambda x: x['timestamp_iso']`). -/
def tsLe (a b : Message) : Prop :=
  a.timestamp_iso ≤ b.timestamp_iso

instance : DecidableRel tsLe := fun a b => Nat.decLe a.timestamp_iso b.timestamp_iso

instance : IsTotal Message tsLe := ⟨fun a b => Nat.le_total a.timestamp_iso b.timestamp_iso⟩

instance : IsTrans Message tsLe := ⟨fun _ _ _ => Nat.le_trans⟩

/-- The single finalization sort (Python's stable `list.sort` by
`timestamp_iso`; a stable sort modelled by insertion sort). -/
def sortByTs (l : List Message) : List Message :=
  List.insertionSort tsLe l

/-- Finalized per-user statistics: `channels_used` materialized with its
cardinality, and the two averages with the zero-guard. -/
structure FinalStats where
  total_messages : Nat
  total_characters : Nat
  total_words : Nat
  channels_used : Finset Nat
  unique_channels : Nat
  attachments_sent : Nat
  embeds_sent : Nat
  reactions_received : Nat
  mentions_made : Nat
  first_message : Option Nat
  last_message : Option Nat
  avg_message_length : ℚ
  avg_words_per_message : ℚ
deriving DecidableEq

/-- Embedding of the per-user finalization of the statistics dict. -/
def finalizeStats (s : Stats) : FinalStats :=
  { total_messages := s.total_messages
    total_characters := s.total_characters
    total_words := s.total_words
    channels_used := s.channels_used
    unique_channels := s.channels_used.card
    attachments_sent := s.attachments_sent
    embeds_sent := s.embeds_sent
    reactions_received := s.reactions_received
    mentions_made := s.mentions_made
    first_message := s.first_message
    last_message := s.last_message
    avg_message_length :=
      if s.total_messages > 0 then
        (s.total_characters : ℚ) / (s.total_messages : ℚ)
      else 0
    avg_words_per_message :=
      if s.total_messages > 0 then
        (s.total_words : ℚ) / (s.total_messages : ℚ)
      else 0 }

/-- Finalized per-user entry. -/
structure FinalUserData where
  user_info : Option UserInfo
  messages : List Message
  stats : FinalStats
deriving DecidableEq

/-- Per-user finalization: compute derived statistics and sort the message
list ascending by timestamp, exactly once. -/
def finalizeUD (ud : UserData) : FinalUserData :=
  { user_info := ud.user_info
    messages := sortByTs ud.messages
    stats := finalizeStats ud.stats }

/-- Embedding of `organize_messages_by_user`: fold every message into its
author's entry, then finalize every entry in place. -/
def organize_messages_by_user (messages : List Message) :
    List (Nat × FinalUserData) :=
  (messages.foldl processMsg []).map (fun p => (p.1, finalizeUD p.2))

/-- Python's `str.strip()`: drop leading and trailing whitespace. -/
def pyStrip (s : String) : String :=
  ⟨((s.data.dropWhile Char.isWhitespace).reverse.dropWhile
      Char.isWhitespace).reverse⟩

/-- Embedding of the analyzer's `extract_content_only`: the stripped
contents of the user's messages in stored order, empties skipped. -/
def extract_content_only (ud : FinalUserData) : List String :=
  ud.messages.foldl
    (fun acc m =>
      let c := pyStrip m.content
      if c ≠ "" then acc ++ [c] else acc) []

/-- Specification-side fold: minimum of a list of timestamps. -/
def natListMin : List Nat → Option Nat
  | [] => none
  | a :: l =>
    some (match natListMin l with
          | none => a
          | some b => min a b)

/-- Specification-side fold: maximum of a list of timestamps. -/
def natListMax : List Nat → Option Nat
  | [] => none
  | a :: l =>
    some (match natListMax l with
          | none => a
          | some b => max a b)

/-- Option-level minimum (absent operand is neutral). -/
def optMin : Option Nat → Option Nat → Option Nat
  | none, b => b
  | some a, none => some a
  | some a, some b => some (min a b)

/-- Option-level maximum (absent operand is neutral). -/
def optMax : Option Nat → Option Nat → Option Nat
  | none, b => b
  | some a, none => some a
  | some a, some b => some (max a b)

/-- Cursor of a batch as recorded for the next request: the id of its last
record, absent for an empty batch. -/
def lastIdOf : List RawMsg → Option Nat
  | [] => none
  | b :: bs => some (lastId b bs)

/-- The request cursors a conforming crawl must send for a given page
sequence: no cursor on the first request, then the last id of each
preceding page. -/
def cursorSpec (batches : List (List RawMsg)) : List (Option Nat) :=
  match batches with
  | [] => []
  | _ :: _ => none :: batches.dropLast.map lastIdOf

/-- Aggregate an author's messages (in arrival order) directly: snapshot
from the first message, the list itself, and the folded statistics. -/
def aggOf (l : List Message) : UserData :=
  { user_info := l.head?.map snapshotOf
    messages := l
    stats := statsOf l }

/-- Fold an additional arrival-order segment into an existing entry. -/
def combineUD (ud : UserData) (l : List Message) : UserData :=
  { user_info :=
      match ud.user_info with
      | some u => some u
      | none => l.head?.map snapshotOf
    messages := ud.messages ++ l
    stats := l.foldl updStats ud.stats }

theorem combineUD_nil (ud : UserData) : combineUD ud [] = ud := by
  cases ud with
  | mk ui ms s => cases ui <;> simp [combineUD]

theorem combineUD_cons (ud : UserData) (m : Message) (l : List Message) :
    combineUD ud (m :: l) = combineUD (stepUD ud m) l := by
  cases ud with
  | mk ui ms s => cases ui <;> simp [combineUD, stepUD]

theorem lookupA_upsert_self {α : Type} (st : List (Nat × α)) (k : Nat) (v : α) :
    lookupA (upsert st k v) k = some v := by
  induction st with
  | nil => simp [upsert, lookupA]
  | cons p rest ih =>
    by_cases h : p.1 = k
    · simp [upsert, lookupA, h]
    · simp [upsert, lookupA, h, ih]

theorem lookupA_upsert_other {α : Type} (st : List (Nat × α)) (k k' : Nat)
    (v : α) (h : k' ≠ k) : lookupA (upsert st k v) k' = lookupA st k' := by
  have hks : ¬k = k' := Ne.symm h
  induction st with
  | nil => simp [upsert, lookupA, hks]
  | cons p rest ih =>
    by_cases hp : p.1 = k
    · subst hp
      simp [upsert, lookupA, hks]
    · simp only [upsert, if_neg hp, lookupA]
      by_cases hc : p.1 = k' <;> simp [hc, ih]

theorem lookupUD_processMsg_self (acc : List (Nat × UserData)) (m : Message) :
    lookupUD (processMsg acc m) m.author.id
      = stepUD (lookupUD acc m.author.id) m := by
  simp [lookupUD, processMsg, lookupA_upsert_self]

theorem lookupUD_processMsg_other (acc : List (Nat × UserData)) (m : Message)
    (uid : Nat) (h : uid ≠ m.author.id) :
    lookupUD (processMsg acc m) uid = lookupUD acc uid := by
  simp [lookupUD, processMsg, lookupA_upsert_other _ _ _ _ h]

theorem foldl_processMsg_lookupUD (msgs : List Message)
    (acc : List (Nat × UserData)) (uid : Nat) :
    lookupUD (msgs.foldl processMsg acc) uid
      = combineUD (lookupUD acc uid)
          (msgs.filter (fun m => m.author.id == uid)) := by
  induction msgs generalizing acc with
  | nil => simp [combineUD_nil]
  | cons m rest ih =>
    by_cases h : m.author.id = uid
    · subst h
      simp only [List.foldl_cons, List.filter_cons, beq_self_eq_true,
        if_pos, ih, lookupUD_processMsg_self, combineUD_cons]
    · have hne : (m.author.id == uid) = false := by simpa using h
      have hother := lookupUD_processMsg_other acc m uid (fun hh => h hh.symm)
      simp [List.filter_cons, hne, ih, hother]

theorem lookupA_upsert_isSome {α : Type} (st : List (Nat × α)) (k uid : Nat)
    (v : α) :
    (lookupA (upsert st k v) uid).isSome
      = ((lookupA st uid).isSome || (k == uid)) := by
  by_cases h : k = uid
  · subst h
    simp [lookupA_upsert_self]
  · rw [lookupA_upsert_other _ _ _ _ (fun hh => h hh.symm)]
    simp [h]

theorem lookupA_foldl_isSome (msgs : List Message)
    (acc : List (Nat × UserData)) (uid : Nat) :
    (lookupA (msgs.foldl processMsg acc) uid).isSome
      = ((lookupA acc uid).isSome
          || msgs.any (fun m => m.author.id == uid)) := by
  induction msgs generalizing acc with
  | nil => simp
  | cons m rest ih =>
    simp only [List.foldl_cons, List.any_cons, ih, processMsg,
      lookupA_upsert_isSome]
    cases hb : (lookupA acc uid).isSome <;>
      cases hc : (m.author.id == uid) <;> simp

theorem lookupA_map {α β : Type} (f : α → β) (st : List (Nat × α))
    (uid : Nat) :
    lookupA (st.map (fun p => (p.1, f p.2))) uid = (lookupA st uid).map f := by
  induction st with
  | nil => simp [lookupA]
  | cons p rest ih =>
    by_cases h : p.1 = uid <;> simp [lookupA, h, ih]

theorem lookupA_isSome_getD (st : List (Nat × UserData)) (uid : Nat)
    (h : (lookupA st uid).isSome = true) :
    lookupA st uid = some (lookupUD st uid) := by
  unfold lookupUD
  cases hc : lookupA st uid with
  | none => rw [hc] at h; simp at h
  | some v => simp

theorem combineUD_empty (l : List Message) :
    combineUD emptyUserData l = aggOf l := by
  simp [combineUD, emptyUserData, aggOf, statsOf]

theorem lookupA_foldl_eq (msgs : List Message)
    (acc : List (Nat × UserData)) (uid : Nat) :
    lookupA (msgs.foldl processMsg acc) uid
      = if lookupA acc uid = none
            ∧ msgs.filter (fun m => m.author.id == uid) = [] then none
        else some (combineUD (lookupUD acc uid)
                    (msgs.filter (fun m => m.author.id == uid))) := by
  induction msgs generalizing acc with
  | nil =>
    simp only [List.foldl_nil, List.filter_nil]
    cases hl : lookupA acc uid with
    | none => simp
    | some ud => simp [combineUD_nil, lookupUD, hl]
  | cons m rest ih =>
    by_cases h : m.author.id = uid
    · subst h
      rw [List.foldl_cons, ih]
      have hup : lookupA (processMsg acc m) m.author.id
          = some (stepUD (lookupUD acc m.author.id) m) := by
        simp [processMsg, lookupA_upsert_self]
      simp [List.filter_cons, hup, lookupUD, combineUD_cons]
    · have hne : (m.author.id == uid) = false := by simpa using h
      have hup : lookupA (processMsg acc m) uid = lookupA acc uid := by
        simp [processMsg, lookupA_upsert_other _ _ _ _ (fun hh => h hh.symm)]
      rw [List.foldl_cons, ih]
      simp [List.filter_cons, hne, hup, lookupUD]

/-- Closed form of the aggregation fold from the empty dict: the entry for
`uid` exists iff some input message has author id `uid`, and then it is the
direct aggregate of that author's messages in arrival order. -/
theorem fold_lookup_eq (msgs : List Message) (uid : Nat) :
    lookupA (msgs.foldl processMsg []) uid
      = if msgs.filter (fun m => m.author.id == uid) = [] then none
        else some (aggOf (msgs.filter (fun m => m.author.id == uid))) := by
  rw [lookupA_foldl_eq]
  simp [lookupA, lookupUD, combineUD_empty]

/-- Closed form of `organize_messages_by_user` at one key. -/
theorem organize_lookup_eq (msgs : List Message) (uid : Nat) :
    lookupA (organize_messages_by_user msgs) uid
      = if msgs.filter (fun m => m.author.id == uid) = [] then none
        else some (finalizeUD
              (aggOf (msgs.filter (fun m => m.author.id == uid)))) := by
  unfold organize_messages_by_user
  rw [lookupA_map, fold_lookup_eq]
  by_cases hf : msgs.filter (fun m => m.author.id == uid) = [] <;> simp [hf]

/-- Word contribution of one message to `total_words`. -/
def wordsOf (m : Message) : Nat :=
  if m.content = "" then 0 else countWords m.content

theorem updStats_first (s : Stats) (m : Message) :
    (updStats s m).first_message
      = optMin s.first_message (some m.timestamp_iso) := by
  cases h : s.first_message <;> simp [updStats, optMin, h]

theorem updStats_last (s : Stats) (m : Message) :
    (updStats s m).last_message
      = optMax s.last_message (some m.timestamp_iso) := by
  cases h : s.last_message <;> simp [updStats, optMax, h]

theorem optMin_assoc (a b c : Option Nat) :
    optMin (optMin a b) c = optMin a (optMin b c) := by
  cases a <;> cases b <;> cases c <;> simp [optMin, Nat.min_assoc]

theorem optMax_assoc (a b c : Option Nat) :
    optMax (optMax a b) c = optMax a (optMax b c) := by
  cases a <;> cases b <;> cases c <;> simp [optMax, Nat.max_assoc]

theorem natListMin_cons (t : Nat) (l : List Nat) :
    natListMin (t :: l) = optMin (some t) (natListMin l) := by
  cases h : natListMin l <;> simp [natListMin, optMin, h]

theorem natListMax_cons (t : Nat) (l : List Nat) :
    natListMax (t :: l) = optMax (some t) (natListMax l) := by
  cases h : natListMax l <;> simp [natListMax, optMax, h]

theorem foldl_updStats_total_messages (l : List Message) (s : Stats) :
    (l.foldl updStats s).total_messages = s.total_messages + l.length := by
  induction l generalizing s with
  | nil => simp
  | cons m rest ih => simp [ih, updStats]; omega

theorem foldl_updStats_total_characters (l : List Message) (s : Stats) :
    (l.foldl updStats s).total_characters
      = s.total_characters + (l.map (fun m => m.content.length)).sum := by
  induction l generalizing s with
  | nil => simp
  | cons m rest ih => simp [ih, updStats]; omega

theorem foldl_updStats_total_words (l : List Message) (s : Stats) :
    (l.foldl updStats s).total_words
      = s.total_words + (l.map wordsOf).sum := by
  induction l generalizing s with
  | nil => simp
  | cons m rest ih => simp [ih, updStats, wordsOf]; omega

theorem foldl_updStats_channels (l : List Message) (s : Stats) :
    (l.foldl updStats s).channels_used
      = s.channels_used ∪ (l.map Message.channel_id).toFinset := by
  induction l generalizing s with
  | nil => simp
  | cons m rest ih =>
    simp [ih, updStats, Finset.insert_union, Finset.union_insert]

theorem foldl_updStats_attachments (l : List Message) (s : Stats) :
    (l.foldl updStats s).attachments_sent
      = s.attachments_sent + (l.map (fun m => m.attachments.length)).sum := by
  induction l generalizing s with
  | nil => simp
  | cons m rest ih => simp [ih, updStats]; omega

theorem foldl_updStats_embeds (l : List Message) (s : Stats) :
    (l.foldl updStats s).embeds_sent
      = s.embeds_sent + (l.map (fun m => m.embeds.length)).sum := by
  induction l generalizing s with
  | nil => simp
  | cons m rest ih => simp [ih, updStats]; omega

theorem foldl_updStats_reactions (l : List Message) (s : Stats) :
    (l.foldl updStats s).reactions_received
      = s.reactions_received
        + (l.map (fun m => (m.reactions.map Reaction.count).sum)).sum := by
  induction l generalizing s with
  | nil => simp
  | cons m rest ih => simp [ih, updStats]; omega

theorem foldl_updStats_mentions (l : List Message) (s : Stats) :
    (l.foldl updStats s).mentions_made
      = s.mentions_made + (l.map (fun m => m.mentions.length)).sum := by
  induction l generalizing s with
  | nil => simp
  | cons m rest ih => simp [ih, updStats]; omega

theorem foldl_updStats_first (l : List Message) (s : Stats) :
    (l.foldl updStats s).first_message
      = optMin s.first_message (natListMin (l.map Message.timestamp_iso)) := by
  induction l generalizing s with
  | nil => cases h : s.first_message <;> simp [natListMin, optMin, h]
  | cons m rest ih =>
    rw [List.foldl_cons, ih, updStats_first, List.map_cons, natListMin_cons,
      optMin_assoc]

theorem foldl_updStats_last (l : List Message) (s : Stats) :
    (l.foldl updStats s).last_message
      = optMax s.last_message (natListMax (l.map Message.timestamp_iso)) := by
  induction l generalizing s with
  | nil => cases h : s.last_message <;> simp [natListMax, optMax, h]
  | cons m rest ih =>
    rw [List.foldl_cons, ih, updStats_last, List.map_cons, natListMax_cons,
      optMax_assoc]

theorem updStats_right_comm (s : Stats) (m₁ m₂ : Message) :
    updStats (updStats s m₁) m₂ = updStats (updStats s m₂) m₁ := by
  have hf : (updStats (updStats s m₁) m₂).first_message
      = (updStats (updStats s m₂) m₁).first_message := by
    simp only [updStats_first, optMin_assoc]
    cases h : s.first_message <;>
      simp [optMin, Nat.min_comm m₁.timestamp_iso m₂.timestamp_iso,
        Nat.min_assoc, Nat.min_left_comm]
  have hl : (updStats (updStats s m₁) m₂).last_message
      = (updStats (updStats s m₂) m₁).last_message := by
    simp only [updStats_last, optMax_assoc]
    cases h : s.last_message <;>
      simp [optMax, Nat.max_comm m₁.timestamp_iso m₂.timestamp_iso,
        Nat.max_assoc, Nat.max_left_comm]
  apply Stats.ext
  · simp [updStats]
  · simp [updStats]; omega
  · simp [updStats]; omega
  · simp [updStats, Finset.Insert.comm]
  · simp [updStats]; omega
  · simp [updStats]; omega
  · simp [updStats]; omega
  · simp [updStats]; omega
  · exact hf
  · exact hl

/-- The statistics fold is order-independent. -/
theorem statsOf_perm {l₁ l₂ : List Message} (h : l₁.Perm l₂) :
    statsOf l₁ = statsOf l₂ := by
  unfold statsOf
  exact (h.foldl_eq' fun x _ y _ z => updStats_right_comm z x y) emptyStats

theorem finalizeUD_aggOf_stats (l : List Message) :
    (finalizeUD (aggOf l)).stats = finalizeStats (statsOf l) := rfl

theorem statsOf_first_eq (l : List Message) :
    (statsOf l).first_message
      = natListMin (l.map Message.timestamp_iso) := by
  unfold statsOf
  rw [foldl_updStats_first]
  simp [emptyStats, optMin]

theorem statsOf_last_eq (l : List Message) :
    (statsOf l).last_message
      = natListMax (l.map Message.timestamp_iso) := by
  unfold statsOf
  rw [foldl_updStats_last]
  simp [emptyStats, optMax]

theorem statsOf_total_messages (l : List Message) :
    (statsOf l).total_messages = l.length := by
  unfold statsOf
  rw [foldl_updStats_total_messages]
  simp [emptyStats]

/-- For C4 the stream may be cut by author first; filtering commutes with
any permutation of the stream. -/
theorem filter_perm_of_perm {l₁ l₂ : List Message} (h : l₁.Perm l₂)
    (uid : Nat) :
    (l₁.filter (fun m => m.author.id == uid)).Perm
      (l₂.filter (fun m => m.author.id == uid)) :=
  h.filter _

/-- Claim C4: for every permutation of a fixed input list,
`organize_messages_by_user` assigns every author identical finalized
statistics (all fields, `channels_used` being a set); moreover
`first_message` and `last_message` are the minimum and maximum of that
author's timestamps, independent of arrival order. -/
theorem organize_stats_perm_invariant (l₁ l₂ : List Message)
    (h : l₁.Perm l₂) (uid : Nat) :
    (lookupA (organize_messages_by_user l₁) uid).map FinalUserData.stats
      = (lookupA (organize_messages_by_user l₂) uid).map FinalUserData.stats
    ∧ (∀ fd, lookupA (organize_messages_by_user l₁) uid = some fd →
        fd.stats.first_message
          = natListMin ((l₁.filter (fun m => m.author.id == uid)).map
              Message.timestamp_iso)
        ∧ fd.stats.last_message
          = natListMax ((l₁.filter (fun m => m.author.id == uid)).map
              Message.timestamp_iso)) := by
  have hp := filter_perm_of_perm h uid
  constructor
  · rw [organize_lookup_eq, organize_lookup_eq]
    by_cases hf : l₁.filter (fun m => m.author.id == uid) = []
    · have hf2 : l₂.filter (fun m => m.author.id == uid) = [] := by
        rw [hf] at hp
        exact hp.symm.eq_nil
      simp [hf, hf2]
    · have hf2 : l₂.filter (fun m => m.author.id == uid) ≠ [] := by
        intro hc
        rw [hc] at hp
        exact hf hp.eq_nil
      simp only [if_neg hf, if_neg hf2, Option.map_some]
      have : statsOf (l₁.filter (fun m => m.author.id == uid))
          = statsOf (l₂.filter (fun m => m.author.id == uid)) :=
        statsOf_perm hp
      simp [finalizeUD_aggOf_stats, this]
  · intro fd hfd
    rw [organize_lookup_eq] at hfd
    by_cases hf : l₁.filter (fun m => m.author.id == uid) = []
    · simp [hf] at hfd
    · rw [if_neg hf] at hfd
      cases hfd
      rw [finalizeUD_aggOf_stats]
      constructor
      · show (finalizeStats _).first_message = _
        simp [finalizeStats, statsOf_first_eq]
      · show (finalizeStats _).last_message = _
        simp [finalizeStats, statsOf_last_eq]

/-- Claim C5: each finalized message list is the author's arrival-order sublist
sorted ascending by timestamp, and the sort happens exactly once, at
finalization: the pre-finalization entry built by the fold still holds the
unsorted arrival-order list, and finalization applies the single sort. -/
theorem messages_sorted_once_at_finalization (msgs : List Message)
    (uid : Nat) :
    (∀ ud, lookupA (msgs.foldl processMsg []) uid = some ud →
        ud.messages = msgs.filter (fun m => m.author.id == uid))
    ∧ (∀ fd, lookupA (organize_messages_by_user msgs) uid = some fd →
        fd.messages = sortByTs (msgs.filter (fun m => m.author.id == uid))
        ∧ fd.messages.Sorted tsLe) := by
  constructor
  · intro ud hud
    rw [fold_lookup_eq] at hud
    by_cases hf : msgs.filter (fun m => m.author.id == uid) = []
    · simp [hf] at hud
    · rw [if_neg hf] at hud
      cases hud
      rfl
  · intro fd hfd
    rw [organize_lookup_eq] at hfd
    by_cases hf : msgs.filter (fun m => m.author.id == uid) = []
    · simp [hf] at hfd
    · rw [if_neg hf] at hfd
      cases hfd
      refine ⟨rfl, ?_⟩
      show (sortByTs _).Sorted tsLe
      exact List.sorted_insertionSort tsLe _

/-- Claim C6: the finalized `user_info` is the author snapshot (author dict plus
`full_username`) of the first message of that author in input order; later
snapshots never overwrite it. -/
theorem user_info_first_write_wins (msgs : List Message) (uid : Nat)
    (fd : FinalUserData)
    (h : lookupA (organize_messages_by_user msgs) uid = some fd) :
    fd.user_info
      = ((msgs.filter (fun m => m.author.id == uid)).head?).map
          snapshotOf := by
  rw [organize_lookup_eq] at h
  by_cases hf : msgs.filter (fun m => m.author.id == uid) = []
  · simp [hf] at h
  · rw [if_neg hf] at h
    cases h
    rfl

/-- Claim C7: the derived averages never divide by zero: with
`total_messages = 0` both averages are defined as `0`, and with a positive
count they are the exact quotients — both for the finalization function
itself and for every entry `organize_messages_by_user` produces. -/
theorem averages_never_divide_by_zero :
    (∀ s : Stats,
        (s.total_messages = 0 →
          (finalizeStats s).avg_message_length = 0
          ∧ (finalizeStats s).avg_words_per_message = 0)
        ∧ (0 < s.total_messages →
          (finalizeStats s).avg_message_length
            = (s.total_characters : ℚ) / (s.total_messages : ℚ)
          ∧ (finalizeStats s).avg_words_per_message
            = (s.total_words : ℚ) / (s.total_messages : ℚ)))
    ∧ (∀ (msgs : List Message) (uid : Nat) (fd : FinalUserData),
        lookupA (organize_messages_by_user msgs) uid = some fd →
        (fd.stats.total_messages = 0 →
          fd.stats.avg_message_length = 0
          ∧ fd.stats.avg_words_per_message = 0)
        ∧ (0 < fd.stats.total_messages →
          fd.stats.avg_message_length
            = (fd.stats.total_characters : ℚ) / (fd.stats.total_messages : ℚ)
          ∧ fd.stats.avg_words_per_message
            = (fd.stats.total_words : ℚ) / (fd.stats.total_messages : ℚ))) := by
  have hmain : ∀ s : Stats,
      (s.total_messages = 0 →
        (finalizeStats s).avg_message_length = 0
        ∧ (finalizeStats s).avg_words_per_message = 0)
      ∧ (0 < s.total_messages →
        (finalizeStats s).avg_message_length
          = (s.total_characters : ℚ) / (s.total_messages : ℚ)
        ∧ (finalizeStats s).avg_words_per_message
          = (s.total_words : ℚ) / (s.total_messages : ℚ)) := by
    intro s
    constructor
    · intro h0
      simp [finalizeStats, h0]
    · intro hpos
      simp [finalizeStats, hpos]
  refine ⟨hmain, ?_⟩
  intro msgs uid fd hfd
  rw [organize_lookup_eq] at hfd
  by_cases hf : msgs.filter (fun m => m.author.id == uid) = []
  · simp [hf] at hfd
  · rw [if_neg hf] at hfd
    cases hfd
    rw [finalizeUD_aggOf_stats]
    have := hmain (statsOf (msgs.filter (fun m => m.author.id == uid)))
    simpa [finalizeStats] using this

/-- Author of the C9 scenario. -/
def c9Author : Author :=
  { id := 7, username := "alice", discriminator := "0"
    display_name := "alice", bot := false, avatar := none }

/-- Scenario message of author `c9Author` with a given id, timestamp and
content, in a single channel and with no attachments, embeds, reactions or
mentions. -/
def c9Msg (i t : Nat) (c : String) : Message :=
  { message_id := i, channel_id := 1, channel_name := "general"
    timestamp_iso := t, author := c9Author, full_username := "alice"
    content := c, attachments := [], embeds := [], reactions := []
    mentions := [], role_mentions := [], reply_to := none, pinned := false
    edited_timestamp := none, message_type := 0, flags := 0 }

/-- Claim C9: three messages of one author at timestamps 1 < 2 < 3 with contents
"hi", "", "bye" (delivered newest-first, as a crawl would) aggregate to
`total_messages = 3` and `total_characters = 5`, while the analyzer's
per-user content list is exactly ["hi", "bye"] in chronological order. -/
theorem scenario_three_messages_hi_bye :
    (lookupA (organize_messages_by_user
        [c9Msg 3 3 "bye", c9Msg 2 2 "", c9Msg 1 1 "hi"]) 7).map
      (fun fd => (fd.stats.total_messages, fd.stats.total_characters,
        extract_content_only fd, fd.messages.map Message.content))
      = some (3, 5, ["hi", "bye"], ["hi", "", "bye"]) := by
  decide

theorem sum_tm_upsert (st : List (Nat × UserData)) (k : Nat) (m : Message) :
    ((upsert st k (stepUD (lookupUD st k) m)).map
      (fun p => p.2.stats.total_messages)).sum
    = (st.map (fun p => p.2.stats.total_messages)).sum + 1 := by
  induction st with
  | nil =>
    simp [upsert, stepUD, lookupUD, lookupA, emptyUserData, updStats,
      emptyStats]
  | cons p rest ih =>
    by_cases h : p.1 = k
    · subst h
      simp [upsert, lookupUD, lookupA, stepUD, updStats]
      omega
    · have hl : lookupUD (p :: rest) k = lookupUD rest k := by
        simp [lookupUD, lookupA, h]
      rw [hl]
      simp only [upsert, if_neg h, List.map_cons, List.sum_cons, ih]
      omega

theorem sum_tm_foldl (msgs : List Message) (acc : List (Nat × UserData)) :
    ((msgs.foldl processMsg acc).map
      (fun p => p.2.stats.total_messages)).sum
    = (acc.map (fun p => p.2.stats.total_messages)).sum + msgs.length := by
  induction msgs generalizing acc with
  | nil => simp
  | cons m rest ih =>
    rw [List.foldl_cons, ih, processMsg, sum_tm_upsert]
    simp
    omega

/-- Claim C10: `organize_messages_by_user` partitions its input: each present
entry's message list is (a permutation, after sorting, of) exactly the
input messages of that author, its `total_messages` equals that list's
length, the per-user totals sum to the input length, and a key is present
iff some input message has that author id. -/
theorem organize_partitions_input (msgs : List Message) :
    (∀ (uid : Nat) (fd : FinalUserData),
        lookupA (organize_messages_by_user msgs) uid = some fd →
        fd.messages.Perm (msgs.filter (fun m => m.author.id == uid))
        ∧ fd.stats.total_messages = fd.messages.length)
    ∧ ((organize_messages_by_user msgs).map
        (fun p => p.2.stats.total_messages)).sum = msgs.length
    ∧ (∀ uid : Nat,
        (lookupA (organize_messages_by_user msgs) uid).isSome = true
          ↔ ∃ m ∈ msgs, m.author.id = uid) := by
  refine ⟨?_, ?_, ?_⟩
  · intro uid fd hfd
    rw [organize_lookup_eq] at hfd
    by_cases hf : msgs.filter (fun m => m.author.id == uid) = []
    · simp [hf] at hfd
    · rw [if_neg hf] at hfd
      cases hfd
      have hperm : (sortByTs (msgs.filter (fun m => m.author.id == uid))).Perm
          (msgs.filter (fun m => m.author.id == uid)) :=
        List.perm_insertionSort tsLe _
      refine ⟨hperm, ?_⟩
      show (finalizeStats
          (statsOf (msgs.filter (fun m => m.author.id == uid)))).total_messages
        = (sortByTs (msgs.filter (fun m => m.author.id == uid))).length
      rw [hperm.length_eq]
      simp [finalizeStats, statsOf_total_messages]
  · unfold organize_messages_by_user
    rw [List.map_map]
    have hcomp : ((fun p : Nat × FinalUserData => p.2.stats.total_messages)
          ∘ fun p : Nat × UserData => (p.1, finalizeUD p.2))
        = fun p : Nat × UserData => p.2.stats.total_messages := by
      funext p
      rfl
    rw [hcomp, sum_tm_foldl]
    simp
  · intro uid
    unfold organize_messages_by_user
    rw [lookupA_map]
    rw [Option.isSome_map']
    rw [lookupA_foldl_isSome]
    simp [lookupA, List.any_eq_true]

theorem crawl_guard_false (limit : Nat) (maxM : Option Nat) (cid : Nat)
    (cn : String) (script : List Response) (st : CrawlState)
    (h : loopGuard maxM st = false) :
    crawl limit maxM cid cn script st = .finished st := by
  cases script with
  | nil => simp [crawl, h]
  | cons r rs => cases r <;> simp [crawl, h]

theorem crawl_nil_true (limit : Nat) (maxM : Option Nat) (cid : Nat)
    (cn : String) (st : CrawlState) (h : loopGuard maxM st = true) :
    crawl limit maxM cid cn [] st = .outOfScript st := by
  simp [crawl, h]

theorem crawl_rate_true (limit : Nat) (maxM : Option Nat) (cid : Nat)
    (cn : String) (ra : Option ℚ) (rs : List Response) (st : CrawlState)
    (h : loopGuard maxM st = true) :
    crawl limit maxM cid cn (.rateLimited ra :: rs) st
      = crawl limit maxM cid cn rs
          { logReq limit maxM st with slept := st.slept + (ra.getD 5 + 1/2) } := by
  simp [crawl, h]

theorem crawl_err_true (limit : Nat) (maxM : Option Nat) (cid : Nat)
    (cn : String) (c : Nat) (rs : List Response) (st : CrawlState)
    (h : loopGuard maxM st = true) :
    crawl limit maxM cid cn (.err c :: rs) st
      = crawl limit maxM cid cn rs
          { logReq limit maxM st with has_more := false } := by
  simp [crawl, h]

theorem crawl_ok_nil_true (limit : Nat) (maxM : Option Nat) (cid : Nat)
    (cn : String) (rs : List Response) (st : CrawlState)
    (h : loopGuard maxM st = true) :
    crawl limit maxM cid cn (.ok [] :: rs) st
      = crawl limit maxM cid cn rs
          { logReq limit maxM st with
            has_more := false,
            pages := (logReq limit maxM st).pages ++ [[]] } := by
  simp [crawl, h]

theorem crawl_ok_exn (limit : Nat) (maxM : Option Nat) (cid : Nat)
    (cn : String) (b : RawMsg) (bs : List RawMsg) (rs : List Response)
    (st : CrawlState) (h : loopGuard maxM st = true)
    (hn : normalizeBatch cid cn (b :: bs) = none) :
    crawl limit maxM cid cn (.ok (b :: bs) :: rs) st
      = .exn (logReq limit maxM st) := by
  simp [crawl, h, hn]

theorem crawl_ok_some (limit : Nat) (maxM : Option Nat) (cid : Nat)
    (cn : String) (b : RawMsg) (bs : List RawMsg) (rs : List Response)
    (st : CrawlState) (msgs : List Message)
    (h : loopGuard maxM st = true)
    (hn : normalizeBatch cid cn (b :: bs) = some msgs) :
    crawl limit maxM cid cn (.ok (b :: bs) :: rs) st
      = (if (b :: bs).length < batchLimit limit maxM st.total then
          crawl limit maxM cid cn rs
            { logReq limit maxM st with
              messages := st.messages ++ msgs,
              before := some (lastId b bs),
              total := st.total + (b :: bs).length,
              pages := st.pages ++ [b :: bs],
              has_more := false }
        else
          crawl limit maxM cid cn rs
            { logReq limit maxM st with
              messages := st.messages ++ msgs,
              before := some (lastId b bs),
              total := st.total + (b :: bs).length,
              pages := st.pages ++ [b :: bs] }) := by
  simp [crawl, h, hn, logReq]

theorem normalizeBatch_of_parseable (cid : Nat) (cn : String)
    (l : List RawMsg) (hp : ∀ r ∈ l, r.timestamp.isSome = true) :
    ∃ msgs, normalizeBatch cid cn l = some msgs ∧ msgs.length = l.length := by
  induction l with
  | nil => exact ⟨[], rfl, rfl⟩
  | cons r rest ih =>
    obtain ⟨msgs, hm, hlen⟩ := ih (fun x hx => hp x (List.mem_cons_of_mem r hx))
    have hr := hp r (List.mem_cons_self r rest)
    cases ht : r.timestamp with
    | none => rw [ht] at hr; simp at hr
    | some t =>
      cases hnm : normalizeMsg cid cn r with
      | none => simp [normalizeMsg, ht] at hnm
      | some msg =>
        refine ⟨msg :: msgs, ?_, by simp [hlen]⟩
        simp [normalizeBatch, hnm, hm]

theorem crawl_c1_aux (limit cid : Nat) (cn : String) :
    ∀ (batches : List (List RawMsg)) (st : CrawlState),
    (∀ b ∈ batches, b.length ≤ limit ∧ ∀ r ∈ b, r.timestamp.isSome = true) →
    (st.has_more = true → batches ≠ []) →
    (∀ lb, batches.getLast? = some lb → lb = [] ∨ lb.length < limit) →
    st.messages.length = (st.pages.map List.length).sum →
    st.total = (st.pages.map List.length).sum →
    ∃ st', crawl limit none cid cn (batches.map .ok) st = .finished st'
      ∧ st'.messages.length = (st'.pages.map List.length).sum
      ∧ st'.total = (st'.pages.map List.length).sum := by
  intro batches
  induction batches with
  | nil =>
    intro st hb hmore hlast hm ht
    cases hhm : st.has_more with
    | true => exact absurd rfl (hmore hhm)
    | false =>
      have hg : loopGuard none st = false := by simp [loopGuard, hhm]
      exact ⟨st, crawl_guard_false _ _ _ _ _ _ hg, hm, ht⟩
  | cons b rest ih =>
    intro st hb hmore hlast hm ht
    cases hhm : st.has_more with
    | false =>
      have hg : loopGuard none st = false := by simp [loopGuard, hhm]
      exact ⟨st, crawl_guard_false _ _ _ _ _ _ hg, hm, ht⟩
    | true =>
      have hg : loopGuard none st = true := by simp [loopGuard, hhm]
      obtain ⟨hble, hbp⟩ := hb b (List.mem_cons_self b rest)
      cases b with
      | nil =>
        rw [List.map_cons, crawl_ok_nil_true _ _ _ _ _ _ hg]
        refine ih _ (fun x hx => hb x (List.mem_cons_of_mem _ hx)) ?_ ?_
          (by simp [logReq, hm]) (by simp [logReq, ht])
        · intro hc
          simp [logReq] at hc
        · intro lb hlb
          refine hlast lb ?_
          cases rest with
          | nil => simp at hlb
          | cons c cs => rw [List.getLast?_cons_cons]; exact hlb
      | cons x xs =>
        obtain ⟨msgs, hnb, hlen⟩ := normalizeBatch_of_parseable cid cn _ hbp
        rw [List.map_cons, crawl_ok_some _ _ _ _ _ _ _ _ _ hg hnb]
        have hbl : batchLimit limit none st.total = limit := rfl
        by_cases hshort : (x :: xs).length < batchLimit limit none st.total
        · rw [if_pos hshort]
          refine ih _ (fun y hy => hb y (List.mem_cons_of_mem _ hy)) ?_ ?_ ?_ ?_
          · intro hc
            simp [logReq] at hc
          · intro lb hlb
            refine hlast lb ?_
            cases rest with
            | nil => simp at hlb
            | cons c cs => rw [List.getLast?_cons_cons]; exact hlb
          · simp [logReq, hm, hlen]
          · simp [logReq, ht]
        · rw [if_neg hshort]
          have hrest : rest ≠ [] := by
            intro hr
            subst hr
            have := hlast (x :: xs) (by simp)
            rw [hbl] at hshort
            rcases this with h1 | h2
            · exact absurd h1 (by simp)
            · exact hshort h2
          refine ih _ (fun y hy => hb y (List.mem_cons_of_mem _ hy)) ?_ ?_ ?_ ?_
          · intro _
            exact hrest
          · intro lb hlb
            refine hlast lb ?_
            cases rest with
            | nil => exact absurd rfl hrest
            | cons c cs => rw [List.getLast?_cons_cons]; exact hlb
          · simp [logReq, hm, hlen]
          · simp [logReq, ht]

/-- Claim C1: for any finite nonempty sequence of successful pages in which every
page holds at most the requested `limit` records (all well formed) and the
last page is empty or shorter than `limit`, the pagination loop exits
normally (no further request pending), and the number of messages it
returns equals the sum of the sizes of the pages it consumed. -/
theorem pagination_terminates_with_sum (limit cid : Nat) (cn : String)
    (batches : List (List RawMsg)) (hne : batches ≠ [])
    (hb : ∀ b ∈ batches, b.length ≤ limit
      ∧ ∀ r ∈ b, r.timestamp.isSome = true)
    (hlast : ∀ lb, batches.getLast? = some lb
      → lb = [] ∨ lb.length < limit) :
    ∃ st', crawl limit none cid cn (batches.map .ok) initState
        = .finished st'
      ∧ st'.messages.length = (st'.pages.map List.length).sum
      ∧ st'.total = (st'.pages.map List.length).sum := by
  exact crawl_c1_aux limit cid cn batches initState hb (fun _ => hne) hlast
    rfl rfl

theorem normalizeBatch_none_of_bad (cid : Nat) (cn : String)
    (l : List RawMsg) (hbad : ∃ r ∈ l, r.timestamp = none) :
    normalizeBatch cid cn l = none := by
  induction l with
  | nil => simp at hbad
  | cons r rest ih =>
    obtain ⟨x, hx, hxt⟩ := hbad
    rcases List.mem_cons.mp hx with hhead | htail
    · subst hhead
      simp [normalizeBatch, normalizeMsg, hxt]
    · cases ht : r.timestamp with
      | none => simp [normalizeBatch, normalizeMsg, ht]
      | some t =>
        simp [normalizeBatch, normalizeMsg, ht, ih ⟨x, htail, hxt⟩]

/-- Claim C2, amended: a raw record with a missing or unparseable timestamp is
NOT skipped — the uncaught parse exception aborts the whole channel
extraction, and the caller receives no messages at all (not even the
well-formed records of the same page). -/
theorem bad_timestamp_aborts_crawl (limit : Nat) (maxM : Option Nat)
    (cid : Nat) (cn : String) (batch : List RawMsg) (rs : List Response)
    (st : CrawlState) (hg : loopGuard maxM st = true)
    (hbad : ∃ r ∈ batch, r.timestamp = none) :
    crawl limit maxM cid cn (.ok batch :: rs) st = .exn (logReq limit maxM st)
    ∧ (crawl limit maxM cid cn (.ok batch :: rs) st).state.messages
        = st.messages := by
  cases batch with
  | nil =>
    exfalso
    obtain ⟨x, hx, _⟩ := hbad
    simp at hx
  | cons b bs =>
    have hn : normalizeBatch cid cn (b :: bs) = none :=
      normalizeBatch_none_of_bad cid cn _ hbad
    have heq := crawl_ok_exn limit maxM cid cn b bs rs st hg hn
    exact ⟨heq, by rw [heq]; rfl⟩

/-- Raw record whose timestamp is missing or unparseable. -/
def c2BadRaw : RawMsg :=
  { id := 11, timestamp := none
    author := { id := 7, username := "alice", discriminator := none
                global_name := none, bot := none, avatar := none }
    content := some "first", attachments := [], embeds := []
    reactions := [], mentions := [], mention_roles := []
    message_reference := none, pinned := none, edited_timestamp := none
    msg_type := none, flags := none }

/-- Well-formed raw record in the same page. -/
def c2GoodRaw : RawMsg :=
  { id := 10, timestamp := some 5
    author := { id := 7, username := "alice", discriminator := none
                global_name := none, bot := none, avatar := none }
    content := some "second", attachments := [], embeds := []
    reactions := [], mentions := [], mention_roles := []
    message_reference := none, pinned := none, edited_timestamp := none
    msg_type := none, flags := none }

/-- Claim C2, counterexample: on a page holding a bad-timestamp record followed
by a well-formed record, the crawl aborts with the uncaught exception and
returns no messages — the bad record is not dropped-and-skipped, and the
remaining record of the page is not extracted. -/
theorem bad_timestamp_not_skipped_counterexample :
    (crawl 100 none 1 "general" [.ok [c2BadRaw, c2GoodRaw]] initState).isExn
        = true
    ∧ (crawl 100 none 1 "general"
        [.ok [c2BadRaw, c2GoodRaw]] initState).state.messages = [] := by
  decide

/-- Request parameters a full-page crawl must send, page by page: the
configured `limit` and the cursor for each page in turn. -/
def expectedReqs (limit : Nat) : Option Nat → List (List RawMsg) → List Request
  | _, [] => []
  | cur, b :: bs => ⟨limit, cur⟩ :: expectedReqs limit (lastIdOf b) bs

/-- Cursor column of `expectedReqs`, starting from a given cursor. -/
def cursorSeq (cur : Option Nat) (batches : List (List RawMsg)) :
    List (Option Nat) :=
  match batches with
  | [] => []
  | _ :: _ => cur :: batches.dropLast.map lastIdOf

theorem cursorSpec_eq_seq (batches : List (List RawMsg)) :
    cursorSpec batches = cursorSeq none batches := by
  cases batches <;> rfl

theorem expectedReqs_before (limit : Nat) (batches : List (List RawMsg)) :
    ∀ cur, (expectedReqs limit cur batches).map Request.before
      = cursorSeq cur batches := by
  induction batches with
  | nil => intro cur; rfl
  | cons b rest ih =>
    intro cur
    cases rest with
    | nil => simp [expectedReqs, cursorSeq]
    | cons c cs =>
      have hih := ih (lastIdOf b)
      show (⟨limit, cur⟩ : Request).before
          :: (expectedReqs limit (lastIdOf b) (c :: cs)).map Request.before
        = cursorSeq cur (b :: c :: cs)
      rw [hih]
      rfl

theorem expectedReqs_length (limit : Nat) (batches : List (List RawMsg)) :
    ∀ cur, (expectedReqs limit cur batches).length = batches.length := by
  induction batches with
  | nil => intro cur; rfl
  | cons b rest ih => intro cur; simp [expectedReqs, ih]

theorem crawl_c8_aux (limit cid : Nat) (cn : String)
    (batches : List (List RawMsg)) :
    ∀ st : CrawlState, st.has_more = true →
    (∀ b ∈ batches, b ≠ [] ∧ b.length = limit
      ∧ ∀ r ∈ b, r.timestamp.isSome = true) →
    ∃ st', crawl limit none cid cn (batches.map .ok) st = .outOfScript st'
      ∧ st'.requests = st.requests ++ expectedReqs limit st.before batches := by
  induction batches with
  | nil =>
    intro st hm hb
    exact ⟨st, crawl_nil_true _ _ _ _ _ (by simp [loopGuard, hm]),
      by simp [expectedReqs]⟩
  | cons b rest ih =>
    intro st hm hb
    obtain ⟨hbne, hblen, hbp⟩ := hb b (List.mem_cons_self b rest)
    cases b with
    | nil => exact absurd rfl hbne
    | cons x xs =>
      obtain ⟨msgs, hnb, hlen⟩ := normalizeBatch_of_parseable cid cn _ hbp
      have hg : loopGuard none st = true := by simp [loopGuard, hm]
      rw [List.map_cons, crawl_ok_some _ _ _ _ _ _ _ _ _ hg hnb]
      have hnotshort : ¬(x :: xs).length < batchLimit limit none st.total := by
        have : batchLimit limit none st.total = limit := rfl
        omega
      rw [if_neg hnotshort]
      obtain ⟨st', hcr, hreq⟩ :=
        ih { logReq limit none st with
              messages := st.messages ++ msgs,
              before := some (lastId x xs),
              total := st.total + (x :: xs).length,
              pages := st.pages ++ [x :: xs] }
          (by simp [logReq, hm]) (fun y hy => hb y (List.mem_cons_of_mem _ hy))
      refine ⟨st', hcr, ?_⟩
      rw [hreq]
      simp [logReq, expectedReqs, lastIdOf, batchLimit, List.append_assoc]

/-- Claim C8: over consecutive successful full (hence non-empty) pages, the first
request is sent without a cursor and every later request's `before` cursor
is the id of the last (oldest) record of the page immediately before it. -/
theorem cursor_follows_last_record (limit cid : Nat) (cn : String)
    (batches : List (List RawMsg))
    (hb : ∀ b ∈ batches, b ≠ [] ∧ b.length = limit
      ∧ ∀ r ∈ b, r.timestamp.isSome = true) :
    ∃ st', crawl limit none cid cn (batches.map .ok) initState
        = .outOfScript st'
      ∧ st'.requests.map Request.before = cursorSpec batches
      ∧ st'.requests.length = batches.length := by
  obtain ⟨st', hcr, hreq⟩ := crawl_c8_aux limit cid cn batches initState rfl hb
  refine ⟨st', hcr, ?_, ?_⟩
  · rw [hreq]
    show (expectedReqs limit none batches).map Request.before = _
    rw [expectedReqs_before, cursorSpec_eq_seq]
  · rw [hreq]
    show (expectedReqs limit none batches).length = _
    rw [expectedReqs_length]

theorem core_fields {st₁ st₂ : CrawlState} (h : st₁.core = st₂.core) :
    st₁.messages = st₂.messages ∧ st₁.before = st₂.before
    ∧ st₁.total = st₂.total ∧ st₁.has_more = st₂.has_more
    ∧ st₁.pages = st₂.pages := by
  simpa [CrawlState.core, Prod.ext_iff] using h

/-- The loop's observable behaviour depends only on the behavioural core of
its state: the `slept` and `requests` instrumentation never feeds back. -/
theorem crawl_core_congr (limit : Nat) (maxM : Option Nat) (cid : Nat)
    (cn : String) :
    ∀ (script : List Response) (st₁ st₂ : CrawlState), st₁.core = st₂.core →
    (crawl limit maxM cid cn script st₁).core
      = (crawl limit maxM cid cn script st₂).core := by
  intro script
  induction script with
  | nil =>
    intro st₁ st₂ h
    obtain ⟨h1, h2, h3, h4, h5⟩ := core_fields h
    have hg : loopGuard maxM st₁ = loopGuard maxM st₂ := by
      simp [loopGuard, h3, h4]
    by_cases hgt : loopGuard maxM st₂ = true
    · rw [crawl_nil_true _ _ _ _ _ (hg.trans hgt), crawl_nil_true _ _ _ _ _ hgt]
      simpa [CrawlResult.core, CrawlResult.tag, CrawlResult.state] using h
    · have hgf : loopGuard maxM st₂ = false := by simpa using hgt
      rw [crawl_guard_false _ _ _ _ _ _ (hg.trans hgf),
        crawl_guard_false _ _ _ _ _ _ hgf]
      simpa [CrawlResult.core, CrawlResult.tag, CrawlResult.state] using h
  | cons r rs ih =>
    intro st₁ st₂ h
    obtain ⟨h1, h2, h3, h4, h5⟩ := core_fields h
    have hg : loopGuard maxM st₁ = loopGuard maxM st₂ := by
      simp [loopGuard, h3, h4]
    by_cases hgt : loopGuard maxM st₂ = true
    case neg =>
      have hgf : loopGuard maxM st₂ = false := by simpa using hgt
      rw [crawl_guard_false _ _ _ _ _ _ (hg.trans hgf),
        crawl_guard_false _ _ _ _ _ _ hgf]
      simpa [CrawlResult.core, CrawlResult.tag, CrawlResult.state] using h
    case pos =>
    have hg1 : loopGuard maxM st₁ = true := hg.trans hgt
    cases r with
    | rateLimited ra =>
      rw [crawl_rate_true _ _ _ _ _ _ _ hg1, crawl_rate_true _ _ _ _ _ _ _ hgt]
      apply ih
      simp [CrawlState.core, logReq, h1, h2, h3, h4, h5]
    | err c =>
      rw [crawl_err_true _ _ _ _ _ _ _ hg1, crawl_err_true _ _ _ _ _ _ _ hgt]
      apply ih
      simp [CrawlState.core, logReq, h1, h2, h3, h4, h5]
    | ok batch =>
      cases batch with
      | nil =>
        rw [crawl_ok_nil_true _ _ _ _ _ _ hg1,
          crawl_ok_nil_true _ _ _ _ _ _ hgt]
        apply ih
        simp [CrawlState.core, logReq, h1, h2, h3, h4, h5]
      | cons b bs =>
        cases hn : normalizeBatch cid cn (b :: bs) with
        | none =>
          rw [crawl_ok_exn _ _ _ _ _ _ _ _ hg1 hn,
            crawl_ok_exn _ _ _ _ _ _ _ _ hgt hn]
          simp [CrawlResult.core, CrawlResult.tag, CrawlResult.state, logReq,
            CrawlState.core, h1, h2, h3, h4, h5]
        | some msgs =>
          rw [crawl_ok_some _ _ _ _ _ _ _ _ _ hg1 hn,
            crawl_ok_some _ _ _ _ _ _ _ _ _ hgt hn, h3]
          by_cases hshort :
              (b :: bs).length < batchLimit limit maxM st₂.total
          · rw [if_pos hshort, if_pos hshort]
            apply ih
            simp [CrawlState.core, logReq, h1, h2, h3, h4, h5]
          · rw [if_neg hshort, if_neg hshort]
            apply ih
            simp [CrawlState.core, logReq, h1, h2, h3, h4, h5]

/-- Claim C3: a 429 makes the loop sleep `retry_after + 0.5` seconds (5 when the
body has no `retry_after`) and retry with fully unchanged crawl state (same
cursor, so the logged request parameters repeat); a run containing the 429
has exactly the same outcome, message sequence, cursor, total and consumed
pages as the run without it — no duplicates and no gaps. -/
theorem rate_limit_backoff_idempotent (limit : Nat) (maxM : Option Nat)
    (cid : Nat) (cn : String) (ra : Option ℚ) (rs₁ rs₂ : List Response)
    (st : CrawlState) :
    (crawl limit maxM cid cn (rs₁ ++ .rateLimited ra :: rs₂) st).core
      = (crawl limit maxM cid cn (rs₁ ++ rs₂) st).core
    ∧ (loopGuard maxM st = true →
        crawl limit maxM cid cn (.rateLimited ra :: rs₂) st
          = crawl limit maxM cid cn rs₂
              { logReq limit maxM st with
                slept := st.slept + (ra.getD 5 + 1/2) }) := by
  constructor
  · induction rs₁ generalizing st with
    | nil =>
      by_cases hg : loopGuard maxM st = true
      · rw [List.nil_append, List.nil_append,
          crawl_rate_true _ _ _ _ _ _ _ hg]
        exact crawl_core_congr _ _ _ _ _ _ _ rfl
      · have hgf : loopGuard maxM st = false := by simpa using hg
        rw [List.nil_append, List.nil_append,
          crawl_guard_false _ _ _ _ _ _ hgf,
          crawl_guard_false _ _ _ _ _ _ hgf]
    | cons r rest ih =>
      by_cases hg : loopGuard maxM st = true
      case neg =>
        have hgf : loopGuard maxM st = false := by simpa using hg
        rw [List.cons_append, List.cons_append,
          crawl_guard_false _ _ _ _ _ _ hgf,
          crawl_guard_false _ _ _ _ _ _ hgf]
      case pos =>
      cases r with
      | rateLimited ra' =>
        rw [List.cons_append, List.cons_append,
          crawl_rate_true _ _ _ _ _ _ _ hg, crawl_rate_true _ _ _ _ _ _ _ hg]
        exact ih _
      | err c =>
        rw [List.cons_append, List.cons_append,
          crawl_err_true _ _ _ _ _ _ _ hg, crawl_err_true _ _ _ _ _ _ _ hg]
        exact ih _
      | ok batch =>
        cases batch with
        | nil =>
          rw [List.cons_append, List.cons_append,
            crawl_ok_nil_true _ _ _ _ _ _ hg,
            crawl_ok_nil_true _ _ _ _ _ _ hg]
          exact ih _
        | cons b bs =>
          cases hn : normalizeBatch cid cn (b :: bs) with
          | none =>
            rw [List.cons_append, List.cons_append,
              crawl_ok_exn _ _ _ _ _ _ _ _ hg hn,
              crawl_ok_exn _ _ _ _ _ _ _ _ hg hn]
          | some msgs =>
            rw [List.cons_append, List.cons_append,
              crawl_ok_some _ _ _ _ _ _ _ _ _ hg hn,
              crawl_ok_some _ _ _ _ _ _ _ _ _ hg hn]
            by_cases hshort :
                (b :: bs).length < batchLimit limit maxM st.total
            · rw [if_pos hshort, if_pos hshort]
              exact ih _
            · rw [if_neg hshort, if_neg hshort]
              exact ih _
  · intro hg
    exact crawl_rate_true _ _ _ _ _ _ _ hg

/-- Concrete raw record used by witness instantiations. -/
def wRaw (i t : Nat) : RawMsg :=
  { id := i, timestamp := some t
    author := { id := 7, username := "alice", discriminator := none
                global_name := none, bot := none, avatar := none }
    content := some "hey", attachments := [], embeds := []
    reactions := [], mentions := [], mention_roles := []
    message_reference := none, pinned := none, edited_timestamp := none
    msg_type := none, flags := none }

/-- Concrete normalized message used by witness instantiations. -/
def wMsgU (i t uid : Nat) (un c : String) : Message :=
  { message_id := i, channel_id := 1, channel_name := "general"
    timestamp_iso := t
    author := { id := uid, username := un, discriminator := "0"
                display_name := un, bot := false, avatar := none }
    full_username := un, content := c, attachments := [], embeds := []
    reactions := [], mentions := [], role_mentions := [], reply_to := none
    pinned := false, edited_timestamp := none, message_type := 0
    flags := 0 }

theorem pagination_terminates_with_sum_witness :
    ∃ st', crawl 2 none 1 "general"
        (([[wRaw 5 3, wRaw 4 2], [wRaw 3 1]] :
          List (List RawMsg)).map Response.ok) initState = .finished st'
      ∧ st'.messages.length = (st'.pages.map List.length).sum
      ∧ st'.total = (st'.pages.map List.length).sum := by
  refine pagination_terminates_with_sum 2 1 "general"
    [[wRaw 5 3, wRaw 4 2], [wRaw 3 1]] (by decide) (by decide) ?_
  intro lb hlb
  rw [show ([[wRaw 5 3, wRaw 4 2], [wRaw 3 1]] :
      List (List RawMsg)).getLast? = some [wRaw 3 1] from rfl] at hlb
  injection hlb with h
  subst h
  exact Or.inr (by decide)

theorem bad_timestamp_aborts_crawl_witness :
    crawl 100 none 1 "general" [.ok [c2BadRaw, c2GoodRaw]] initState
      = .exn (logReq 100 none initState)
    ∧ (crawl 100 none 1 "general"
        [.ok [c2BadRaw, c2GoodRaw]] initState).state.messages
      = initState.messages :=
  bad_timestamp_aborts_crawl 100 none 1 "general" [c2BadRaw, c2GoodRaw] []
    initState (by decide) ⟨c2BadRaw, by decide, rfl⟩

theorem rate_limit_backoff_idempotent_witness :
    crawl 2 none 1 "general" (.rateLimited (some 3) :: [.ok [wRaw 3 1]])
        initState
      = crawl 2 none 1 "general" [.ok [wRaw 3 1]]
          { logReq 2 none initState with
            slept := initState.slept + ((some (3 : ℚ)).getD 5 + 1/2) } :=
  (rate_limit_backoff_idempotent 2 none 1 "general" (some 3) []
    [.ok [wRaw 3 1]] initState).2 (by decide)

theorem organize_stats_perm_invariant_witness :
    (lookupA (organize_messages_by_user
        [wMsgU 1 5 7 "a" "aa", wMsgU 2 3 7 "a" "b"]) 7).map
      FinalUserData.stats
      = (lookupA (organize_messages_by_user
          [wMsgU 2 3 7 "a" "b", wMsgU 1 5 7 "a" "aa"]) 7).map
        FinalUserData.stats :=
  (organize_stats_perm_invariant [wMsgU 1 5 7 "a" "aa", wMsgU 2 3 7 "a" "b"]
    [wMsgU 2 3 7 "a" "b", wMsgU 1 5 7 "a" "aa"] (by decide) 7).1

theorem messages_sorted_once_at_finalization_witness :
    ∃ fd, lookupA (organize_messages_by_user
        [wMsgU 2 9 7 "a" "x", wMsgU 1 4 7 "a" "y"]) 7 = some fd
      ∧ fd.messages = sortByTs ([wMsgU 2 9 7 "a" "x", wMsgU 1 4 7 "a" "y"].filter
          (fun m => m.author.id == 7))
      ∧ fd.messages.Sorted tsLe := by
  cases hl : lookupA (organize_messages_by_user
      [wMsgU 2 9 7 "a" "x", wMsgU 1 4 7 "a" "y"]) 7 with
  | none => exact absurd hl (by decide)
  | some fd =>
    exact ⟨fd, rfl, (messages_sorted_once_at_finalization
      [wMsgU 2 9 7 "a" "x", wMsgU 1 4 7 "a" "y"] 7).2 fd hl⟩

theorem user_info_first_write_wins_witness :
    ∃ fd, lookupA (organize_messages_by_user
        [wMsgU 1 1 7 "first" "x", wMsgU 2 2 7 "second" "y"]) 7 = some fd
      ∧ fd.user_info
        = (([wMsgU 1 1 7 "first" "x", wMsgU 2 2 7 "second" "y"].filter
            (fun m => m.author.id == 7)).head?).map snapshotOf := by
  cases hl : lookupA (organize_messages_by_user
      [wMsgU 1 1 7 "first" "x", wMsgU 2 2 7 "second" "y"]) 7 with
  | none => exact absurd hl (by decide)
  | some fd =>
    exact ⟨fd, rfl, user_info_first_write_wins
      [wMsgU 1 1 7 "first" "x", wMsgU 2 2 7 "second" "y"] 7 fd hl⟩

theorem averages_never_divide_by_zero_witness :
    ((finalizeStats emptyStats).avg_message_length = 0
      ∧ (finalizeStats emptyStats).avg_words_per_message = 0)
    ∧ (finalizeStats (updStats emptyStats
        (wMsgU 1 1 7 "a" "abcd"))).avg_message_length
      = (((updStats emptyStats (wMsgU 1 1 7 "a" "abcd")).total_characters : ℚ)
          / ((updStats emptyStats (wMsgU 1 1 7 "a" "abcd")).total_messages : ℚ)) :=
  ⟨(averages_never_divide_by_zero.1 emptyStats).1 rfl,
    ((averages_never_divide_by_zero.1
      (updStats emptyStats (wMsgU 1 1 7 "a" "abcd"))).2 (by decide)).1⟩

theorem cursor_follows_last_record_witness :
    ∃ st', crawl 2 none 1 "general"
        (([[wRaw 9 4, wRaw 8 3], [wRaw 7 2, wRaw 6 1]] :
          List (List RawMsg)).map Response.ok) initState = .outOfScript st'
      ∧ st'.requests.map Request.before
        = cursorSpec [[wRaw 9 4, wRaw 8 3], [wRaw 7 2, wRaw 6 1]]
      ∧ st'.requests.length = 2 :=
  cursor_follows_last_record 2 1 "general"
    [[wRaw 9 4, wRaw 8 3], [wRaw 7 2, wRaw 6 1]] (by decide)

theorem organize_partitions_input_witness :
    (∃ fd, lookupA (organize_messages_by_user
        [wMsgU 1 1 7 "a" "x", wMsgU 2 2 8 "b" "y", wMsgU 3 3 7 "a" "z"]) 7
          = some fd
      ∧ fd.messages.Perm
          ([wMsgU 1 1 7 "a" "x", wMsgU 2 2 8 "b" "y", wMsgU 3 3 7 "a" "z"].filter
            (fun m => m.author.id == 7))
      ∧ fd.stats.total_messages = fd.messages.length)
    ∧ ((organize_messages_by_user
        [wMsgU 1 1 7 "a" "x", wMsgU 2 2 8 "b" "y", wMsgU 3 3 7 "a" "z"]).map
      (fun p => p.2.stats.total_messages)).sum = 3 := by
  constructor
  · cases hl : lookupA (organize_messages_by_user
        [wMsgU 1 1 7 "a" "x", wMsgU 2 2 8 "b" "y", wMsgU 3 3 7 "a" "z"]) 7 with
    | none => exact absurd hl (by decide)
    | some fd =>
      exact ⟨fd, rfl, (organize_partitions_input
        [wMsgU 1 1 7 "a" "x", wMsgU 2 2 8 "b" "y", wMsgU 3 3 7 "a" "z"]).1
          7 fd hl⟩
  · exact (organize_partitions_input
      [wMsgU 1 1 7 "a" "x", wMsgU 2 2 8 "b" "y", wMsgU 3 3 7 "a" "z"]).2.1
